import Mathlib

/-!
Verification of the balance engine of the Split-Ledger repository
(backend/app/services/balance_service.py) against its specification.

Modelling choices:
* Monetary amounts are Python `Decimal` values.  On every code path of the
  balance engine the `Decimal` operations used (+, -, unary minus, `min`,
  comparisons, equality) are exact, so amounts are embedded as exact
  rationals (`ℚ`).
* A Python `dict[int, Decimal]` is embedded as an insertion-ordered
  association list `List (Nat × ℚ)` whose keys are unique (dict keys are
  unique by construction; theorems about arbitrary balance maps carry the
  corresponding `Nodup` hypothesis).  Writing to an existing key updates it
  in place, writing to a fresh key appends — exactly Python dict order.
* The SQLAlchemy session is embedded as a record of table contents.  SQL
  does not specify row order for the `Split ⋈ Expense` join, so the join is
  fixed in expense-major order; every (split row, matching expense row)
  pair produces one result row, as in SQL.
* `AppError` exceptions become `Except` results (the human-readable message
  string is not modelled; code and HTTP status are).
* String serialisation (`str(Decimal)`) is not modelled; response payloads
  carry the exact decimal values being serialised.
-/

namespace SplitLedger

/-- The `Category` enum of models/expense.py (non-nullable on expenses). -/
inductive Category where
  | food
  | transport
  | accommodation
  | entertainment
  | utilities
  | other
deriving DecidableEq, Repr

/-- A row of the expenses table. `deleted_at` is `none` for active expenses
(INV-8 soft-delete marker). -/
structure Expense where
  id : Nat
  group_id : Nat
  paid_by_user_id : Nat
  amount : ℚ
  category : Category
  deleted_at : Option Nat
deriving DecidableEq, Repr

/-- A row of the splits table. -/
structure Split where
  expense_id : Nat
  user_id : Nat
  amount : ℚ
deriving DecidableEq, Repr

/-- A row of the settlements table. -/
structure Settlement where
  group_id : Nat
  paid_by_user_id : Nat
  paid_to_user_id : Nat
  amount : ℚ
deriving DecidableEq, Repr

/-- A row of the memberships junction table. -/
structure Membership where
  group_id : Nat
  user_id : Nat
deriving DecidableEq, Repr

/-- A row of the users table (only the fields the balance engine reads). -/
structure User where
  id : Nat
  username : String
deriving DecidableEq, Repr

/-- The database state visible to the balance service: table contents.
`groups` holds the primary keys of existing groups. -/
structure DB where
  groups : List Nat
  users : List User
  memberships : List Membership
  expenses : List Expense
  splits : List Split
  settlements : List Settlement
deriving Repr

/-- The optional category filter of `get_active_expenses`. -/
def categoryMatches (category : Option Category) (e : Expense) : Bool :=
  match category with
  | none => true
  | some c => e.category == c

/-- `get_active_expenses`: expenses of the group WHERE deleted_at IS NULL
(INV-8), optionally restricted to one category. -/
def get_active_expenses (group_id : Nat) (db : DB)
    (category : Option Category) : List Expense :=
  db.expenses.filter (fun e =>
    e.group_id == group_id && e.deleted_at == none && categoryMatches category e)

/-- `get_splits_for_active_expenses`: the SQL join Split ⋈ Expense on
Split.expense_id = Expense.id with the same WHERE clauses as
`get_active_expenses`.  Row order is unspecified by the query; fixed here in
expense-major order.  Each (split, matching expense) pair yields one row. -/
def get_splits_for_active_expenses (group_id : Nat) (db : DB)
    (category : Option Category) : List Split :=
  (get_active_expenses group_id db category).flatMap
    (fun e => db.splits.filter (fun s => s.expense_id == e.id))

/-- `get_settlements`: all settlements of the group (no soft delete). -/
def get_settlements (group_id : Nat) (db : DB) : List Settlement :=
  db.settlements.filter (fun s => s.group_id == group_id)

/-- `get_member_ids`: the user_ids of all current members of the group. -/
def get_member_ids (group_id : Nat) (db : DB) : List Nat :=
  (db.memberships.filter (fun m => m.group_id == group_id)).map
    (fun m => m.user_id)

/-- `get_members`: the User rows of all current members of the group. -/
def get_members (group_id : Nat) (db : DB) : List User :=
  db.users.filter (fun u =>
    (db.memberships.filter (fun m => m.group_id == group_id)).any
      (fun m => m.user_id == u.id))

/-- A Python `dict[int, Decimal]` in insertion order. Keys are unique for
maps that actually arise from a dict. -/
abbrev BalanceMap := List (Nat × ℚ)

/-- Dict lookup, with the `defaultdict(Decimal)` default of `Decimal(0)`
for absent keys. -/
def lookupD (m : BalanceMap) (k : Nat) : ℚ :=
  match m.find? (fun p => p.1 == k) with
  | some p => p.2
  | none => 0

/-- Dict assignment `m[k] = v`: update in place when the key is present
(dict keys are unique, so replacing the first occurrence is exact),
append when absent. -/
def setKey : BalanceMap → Nat → ℚ → BalanceMap
  | [], k, v => [(k, v)]
  | p :: rest, k, v =>
    if p.1 == k then (k, v) :: rest else p :: setKey rest k v

/-- The accumulation step `m[k] += d` of a `defaultdict(Decimal)`. -/
def addTo (m : BalanceMap) (k : Nat) (d : ℚ) : BalanceMap :=
  setKey m k (lookupD m k + d)

/-- Python `m.setdefault(k, v)`: insert `(k, v)` when `k` is absent. -/
def setdefault (m : BalanceMap) (k : Nat) (v : ℚ) : BalanceMap :=
  if (m.find? (fun p => p.1 == k)).isSome then m else m ++ [(k, v)]

/-- The keys of a balance map, in insertion order. -/
def keysOf (m : BalanceMap) : List Nat := m.map Prod.fst

/-- Sum of the values of a balance map (`sum(balances.values())`). -/
def sumValues (m : BalanceMap) : ℚ := (m.map (fun p => p.2)).sum

/-- `compute_balances`: canonical balance computation for a group.
Step 1 credits each payer the full expense amount; step 2 debits each split
participant; step 3 nets settlements, only when no category filter is
active; step 4 seeds every current member with `0.00` if absent. -/
def compute_balances (group_id : Nat) (db : DB)
    (category : Option Category) : BalanceMap :=
  let b1 := (get_active_expenses group_id db category).foldl
    (fun m e => addTo m e.paid_by_user_id e.amount) []
  let b2 := (get_splits_for_active_expenses group_id db category).foldl
    (fun m s => addTo m s.user_id (-s.amount)) b1
  let b3 := if category = none then
      (get_settlements group_id db).foldl
        (fun m st =>
          addTo (addTo m st.paid_by_user_id st.amount)
            st.paid_to_user_id (-st.amount)) b2
    else b2
  (get_member_ids group_id db).foldl (fun m uid => setdefault m uid 0) b3

/-- One simplified-debt instruction
`{"from_user_id": ..., "to_user_id": ..., "amount": ...}`. -/
structure Transfer where
  from_user_id : Nat
  to_user_id : Nat
  amount : ℚ
deriving DecidableEq, Repr

/-- The sort key of `simplify_debts`: descending by amount, stable
(Python `sorted(key=x[1], reverse=True)` keeps the original order of
equal-amount entries, as does a stable merge sort with this relation). -/
def descBySnd (a b : Nat × ℚ) : Bool := b.2 ≤ a.2

/-- The while loop of `simplify_debts` over the creditor list (entries at
index ≥ i) and the debtor list (entries at index ≥ j).  In the source, when
`creditors[i]` does not reach zero the transfer was `min = debt`, so
`debtors[j]` reached exactly zero and only `j` advances — that is the final
branch. -/
def simplifyLoop : List (Nat × ℚ) → List (Nat × ℚ) → List Transfer
  | [], _ => []
  | _ :: _, [] => []
  | (cid, credit) :: cs, (did, debt) :: ds =>
    let transfer := min credit debt
    let tx : Transfer := ⟨did, cid, transfer⟩
    if credit - transfer = 0 then
      if debt - transfer = 0 then
        tx :: simplifyLoop cs ds
      else
        tx :: simplifyLoop cs ((did, debt - transfer) :: ds)
    else
      tx :: simplifyLoop ((cid, credit - transfer) :: cs) ds
termination_by C D => C.length + D.length
decreasing_by all_goals simp_arith

/-- `simplify_debts`: greedy minimum cash flow debt simplification.
Creditors (balance > 0) and debtors (balance < 0, as positive magnitude)
are sorted largest first and matched greedily. -/
def simplify_debts (balances : BalanceMap) : List Transfer :=
  let creditors :=
    (balances.filter (fun p => decide (0 < p.2))).mergeSort descBySnd
  let debtors :=
    ((balances.filter (fun p => decide (p.2 < 0))).map
      (fun p => (p.1, -p.2))).mergeSort descBySnd
  simplifyLoop creditors debtors

/-- Error codes raised by `get_balance_response`. -/
inductive ErrorCode where
  | GROUP_NOT_FOUND
  | FORBIDDEN
  | INTERNAL_ERROR
deriving DecidableEq, Repr

/-- An `AppError` exception: error code and HTTP status. -/
structure AppError where
  code : ErrorCode
  status : Nat
deriving DecidableEq, Repr

/-- One entry of the response's balance list. -/
structure BalanceEntry where
  user_id : Nat
  name : String
  balance : ℚ
deriving DecidableEq, Repr

/-- One entry of the response's simplified-debt list. -/
structure SimplifiedDebt where
  from_user_id : Nat
  from_name : String
  to_user_id : Nat
  to_name : String
  amount : ℚ
deriving DecidableEq, Repr

/-- The payload of GET /groups/:id/balances. -/
structure BalanceResponse where
  group_id : Nat
  balances : List BalanceEntry
  simplified_debts : List SimplifiedDebt
  balance_sum : ℚ
deriving DecidableEq, Repr

/-- `member_map.get(uid, f"user_{uid}")` where member_map maps each
member's id to their username. -/
def memberName (members : List User) (uid : Nat) : String :=
  match members.find? (fun u => u.id == uid) with
  | some u => u.username
  | none => "user_" ++ toString uid

/-- `get_balance_response`: verifies the group exists (404), the caller is
a member (403), computes balances, and for the unfiltered view asserts
INV-2 (500 on nonzero sum) and attaches simplified debts; category-filtered
views get an empty simplified-debt list and no integrity check. -/
def get_balance_response (group_id caller_id : Nat) (db : DB)
    (category : Option Category) : Except AppError BalanceResponse :=
  if db.groups.contains group_id then
    if (get_member_ids group_id db).contains caller_id then
      let balances := compute_balances group_id db category
      let members := get_members group_id db
      let balance_list := balances.map
        (fun p => BalanceEntry.mk p.1 (memberName members p.1) p.2)
      if category = none then
        if sumValues balances = 0 then
          let simplified := simplify_debts balances
          let simplified_debts := simplified.map (fun t =>
            SimplifiedDebt.mk t.from_user_id (memberName members t.from_user_id)
              t.to_user_id (memberName members t.to_user_id) t.amount)
          .ok ⟨group_id, balance_list, simplified_debts, sumValues balances⟩
        else
          .error ⟨ErrorCode.INTERNAL_ERROR, 500⟩
      else
        .ok ⟨group_id, balance_list, [], sumValues balances⟩
    else
      .error ⟨ErrorCode.FORBIDDEN, 403⟩
  else
    .error ⟨ErrorCode.GROUP_NOT_FOUND, 404⟩

/-- Total amount a member receives from a transfer list (credited as `to`). -/
def toTotal (u : Nat) (ts : List Transfer) : ℚ :=
  ((ts.filter (fun t => t.to_user_id == u)).map (fun t => t.amount)).sum

/-- Total amount a member pays in a transfer list (debited as `from`). -/
def fromTotal (u : Nat) (ts : List Transfer) : ℚ :=
  ((ts.filter (fun t => t.from_user_id == u)).map (fun t => t.amount)).sum

/-- Net effect of applying a transfer list to a member: credits minus
debits. -/
def netTo (u : Nat) (ts : List Transfer) : ℚ := toTotal u ts - fromTotal u ts

/-- Total amount recorded for key `u` in a creditor/debtor working list. -/
def amountFor (l : List (Nat × ℚ)) (u : Nat) : ℚ :=
  ((l.filter (fun p => p.1 == u)).map (fun p => p.2)).sum

/-- Concrete database for witnesses: group 1 with members A(1), B(2), C(3);
one active $100 expense paid by A split $60/$40 between A and B; one $30
settlement from B to A.  Balances: A +10, B -10, C 0. -/
def dbA : DB where
  groups := [1]
  users := [⟨1, "A"⟩, ⟨2, "B"⟩, ⟨3, "C"⟩]
  memberships := [⟨1, 1⟩, ⟨1, 2⟩, ⟨1, 3⟩]
  expenses := [⟨10, 1, 1, 100, Category.other, none⟩]
  splits := [⟨10, 1, 60⟩, ⟨10, 2, 40⟩]
  settlements := [⟨1, 2, 1, 30⟩]

/-- Concrete database with corrupt data (split sum 60 ≠ expense amount 100):
the unfiltered balance sum is 40, triggering the 500 integrity error. -/
def dbB : DB where
  groups := [1]
  users := [⟨1, "A"⟩, ⟨2, "B"⟩]
  memberships := [⟨1, 1⟩, ⟨1, 2⟩]
  expenses := [⟨10, 1, 1, 100, Category.other, none⟩]
  splits := [⟨10, 2, 60⟩]
  settlements := []

/-- Concrete database where an active expense was paid by user 99 who is
not a member of group 1: key 99 appears in the balance map. -/
def dbX : DB where
  groups := [1]
  users := [⟨1, "A"⟩]
  memberships := [⟨1, 1⟩]
  expenses := [⟨10, 1, 99, 10, Category.other, none⟩]
  splits := []
  settlements := []

/-! ### Association-list lemmas -/

lemma lookupD_nil (k : Nat) : lookupD [] k = 0 := rfl

lemma lookupD_cons (p : Nat × ℚ) (m : BalanceMap) (k : Nat) :
    lookupD (p :: m) k = if p.1 = k then p.2 else lookupD m k := by
  by_cases h : p.1 = k <;> simp [lookupD, List.find?_cons, h]

lemma sumValues_nil : sumValues [] = 0 := rfl

lemma sumValues_cons (p : Nat × ℚ) (m : BalanceMap) :
    sumValues (p :: m) = p.2 + sumValues m := by
  simp [sumValues]

lemma sumValues_append (m₁ m₂ : BalanceMap) :
    sumValues (m₁ ++ m₂) = sumValues m₁ + sumValues m₂ := by
  simp [sumValues]

lemma lookupD_setKey (m : BalanceMap) (k : Nat) (v : ℚ) (u : Nat) :
    lookupD (setKey m k v) u = if u = k then v else lookupD m u := by
  induction m with
  | nil =>
    by_cases h : u = k
    · subst h; simp [setKey, lookupD_cons]
    · have h' : ¬ k = u := fun hh => h hh.symm
      simp [setKey, lookupD_cons, lookupD_nil, h, h']
  | cons p rest ih =>
    by_cases hpk : p.1 = k
    · by_cases huk : u = k
      · subst huk
        simp [setKey, hpk, lookupD_cons]
      · have h' : ¬ k = u := fun hh => huk hh.symm
        have hpu : ¬ p.1 = u := hpk ▸ h'
        simp [setKey, hpk, lookupD_cons, huk, h', hpu]
    · have hne : (p.1 == k) = false := by simp [hpk]
      by_cases hpu : p.1 = u
      · have huk : ¬ u = k := by rw [← hpu]; exact hpk
        simp [setKey, hne, lookupD_cons, hpu, huk]
      · simp [setKey, hne, lookupD_cons, hpu, ih]

lemma sumValues_addTo (m : BalanceMap) (k : Nat) (d : ℚ) :
    sumValues (addTo m k d) = sumValues m + d := by
  induction m with
  | nil => simp [addTo, setKey, lookupD_nil, sumValues_cons, sumValues_nil]
  | cons p rest ih =>
    by_cases hpk : p.1 = k
    · simp [addTo, setKey, hpk, lookupD_cons, sumValues_cons]
      ring
    · have hstep : addTo (p :: rest) k d = p :: addTo rest k d := by
        simp [addTo, setKey, hpk, lookupD_cons]
      rw [hstep, sumValues_cons, ih, sumValues_cons]
      ring

lemma lookupD_addTo (m : BalanceMap) (k : Nat) (d : ℚ) (u : Nat) :
    lookupD (addTo m k d) u = if u = k then lookupD m k + d else lookupD m u := by
  simp [addTo, lookupD_setKey]

lemma mem_keysOf_setKey (m : BalanceMap) (k : Nat) (v : ℚ) (u : Nat) :
    u ∈ keysOf (setKey m k v) ↔ u ∈ keysOf m ∨ u = k := by
  induction m with
  | nil => simp [setKey, keysOf]
  | cons p rest ih =>
    by_cases hpk : p.1 = k
    · subst hpk
      simp [setKey, keysOf]
      tauto
    · have hne : (p.1 == k) = false := by simp [hpk]
      simp [setKey, hne, keysOf] at ih ⊢
      tauto

lemma mem_keysOf_addTo (m : BalanceMap) (k : Nat) (d : ℚ) (u : Nat) :
    u ∈ keysOf (addTo m k d) ↔ u ∈ keysOf m ∨ u = k := by
  simp [addTo, mem_keysOf_setKey]

lemma mem_keysOf_setdefault (m : BalanceMap) (k : Nat) (v : ℚ) (u : Nat) :
    u ∈ keysOf (setdefault m k v) ↔ u ∈ keysOf m ∨ u = k := by
  unfold setdefault
  split
  · rename_i h
    rw [List.find?_isSome] at h
    obtain ⟨p, hp, hpk⟩ := h
    have hk : k ∈ keysOf m := by
      simp only [keysOf, List.mem_map]
      exact ⟨p, hp, by simpa using hpk⟩
    constructor
    · exact Or.inl
    · rintro (hu | rfl)
      · exact hu
      · exact hk
  · simp [keysOf]

lemma lookupD_setdefault_zero (m : BalanceMap) (k : Nat) (u : Nat) :
    lookupD (setdefault m k 0) u = lookupD m u := by
  unfold setdefault
  split
  · rfl
  · rename_i h
    by_cases huk : u = k
    · subst huk
      have hf : m.find? (fun p => p.1 == u) = none := by
        cases hf : m.find? (fun p => p.1 == u) with
        | none => rfl
        | some p => rw [hf] at h; simp at h
      simp [lookupD, List.find?_append, hf, List.find?_cons]
    · have h' : (k == u) = false := by
        simp only [beq_eq_false_iff_ne, ne_eq]
        exact fun hh => huk hh.symm
      simp only [lookupD, List.find?_append, List.find?_cons, h',
        cond_false, List.find?_nil, Option.or_none]

lemma sumValues_setdefault_zero (m : BalanceMap) (k : Nat) :
    sumValues (setdefault m k 0) = sumValues m := by
  unfold setdefault
  split
  · rfl
  · simp [sumValues_append, sumValues_cons, sumValues_nil]

/-! ### Fold lemmas for the accumulation passes of compute_balances -/

lemma sumValues_foldl_addTo {α : Type} (L : List α) (f : α → Nat) (g : α → ℚ)
    (m₀ : BalanceMap) :
    sumValues (L.foldl (fun m a => addTo m (f a) (g a)) m₀) =
      sumValues m₀ + (L.map g).sum := by
  induction L generalizing m₀ with
  | nil => simp
  | cons a rest ih =>
    simp only [List.foldl_cons, List.map_cons, List.sum_cons]
    rw [ih, sumValues_addTo]
    ring

lemma sumValues_foldl_settle (S : List Settlement) (m₀ : BalanceMap) :
    sumValues (S.foldl
      (fun m st => addTo (addTo m st.paid_by_user_id st.amount)
        st.paid_to_user_id (-st.amount)) m₀) = sumValues m₀ := by
  induction S generalizing m₀ with
  | nil => rfl
  | cons st rest ih =>
    simp only [List.foldl_cons]
    rw [ih, sumValues_addTo, sumValues_addTo]
    ring

lemma sumValues_foldl_setdefault (ids : List Nat) (m₀ : BalanceMap) :
    sumValues (ids.foldl (fun m i => setdefault m i 0) m₀) = sumValues m₀ := by
  induction ids generalizing m₀ with
  | nil => rfl
  | cons i rest ih =>
    simp only [List.foldl_cons]
    rw [ih, sumValues_setdefault_zero]

lemma lookupD_foldl_addTo {α : Type} (L : List α) (f : α → Nat) (g : α → ℚ)
    (m₀ : BalanceMap) (u : Nat) :
    lookupD (L.foldl (fun m a => addTo m (f a) (g a)) m₀) u =
      lookupD m₀ u + ((L.filter (fun a => f a == u)).map g).sum := by
  induction L generalizing m₀ with
  | nil => simp
  | cons a rest ih =>
    simp only [List.foldl_cons, List.filter_cons]
    by_cases hau : f a = u
    · simp only [hau, beq_self_eq_true, if_true, List.map_cons, List.sum_cons]
      rw [ih, lookupD_addTo]
      simp [hau]
      ring
    · have : (f a == u) = false := by simp [hau]
      simp only [this, Bool.false_eq_true, if_false]
      rw [ih, lookupD_addTo]
      have : ¬ u = f a := fun hh => hau hh.symm
      simp [this]

lemma lookupD_foldl_settle (S : List Settlement) (m₀ : BalanceMap) (u : Nat)
    (hu : ∀ st ∈ S, st.paid_by_user_id ≠ u ∧ st.paid_to_user_id ≠ u) :
    lookupD (S.foldl
      (fun m st => addTo (addTo m st.paid_by_user_id st.amount)
        st.paid_to_user_id (-st.amount)) m₀) u = lookupD m₀ u := by
  induction S generalizing m₀ with
  | nil => rfl
  | cons st rest ih =>
    simp only [List.foldl_cons]
    have hst := hu st (by simp)
    rw [ih _ (fun s hs => hu s (List.mem_cons_of_mem _ hs)),
      lookupD_addTo, lookupD_addTo]
    have h1 : ¬ u = st.paid_by_user_id := fun hh => hst.1 hh.symm
    have h2 : ¬ u = st.paid_to_user_id := fun hh => hst.2 hh.symm
    simp [h1, h2, lookupD_addTo]

lemma lookupD_foldl_setdefault (ids : List Nat) (m₀ : BalanceMap) (u : Nat) :
    lookupD (ids.foldl (fun m i => setdefault m i 0) m₀) u = lookupD m₀ u := by
  induction ids generalizing m₀ with
  | nil => rfl
  | cons i rest ih =>
    simp only [List.foldl_cons]
    rw [ih, lookupD_setdefault_zero]

lemma mem_keysOf_foldl_setdefault (ids : List Nat) (m₀ : BalanceMap) (u : Nat) :
    u ∈ keysOf (ids.foldl (fun m i => setdefault m i 0) m₀) ↔
      u ∈ keysOf m₀ ∨ u ∈ ids := by
  induction ids generalizing m₀ with
  | nil => simp
  | cons i rest ih =>
    simp only [List.foldl_cons, ih, mem_keysOf_setdefault, List.mem_cons]
    tauto

/-- Sum distributes over flatMap (not available by this name in the
pinned library). -/
lemma sum_map_flatMap {α β : Type} (L : List α) (g : α → List β) (h : β → ℚ) :
    ((L.flatMap g).map h).sum = (L.map (fun a => ((g a).map h).sum)).sum := by
  induction L with
  | nil => rfl
  | cons a rest ih =>
    simp only [List.flatMap_cons, List.map_append, List.sum_append,
      List.map_cons, List.sum_cons, ih]

lemma sum_map_neg {α : Type} (l : List α) (f : α → ℚ) :
    (l.map (fun a => -(f a))).sum = -((l.map f).sum) := by
  induction l with
  | nil => simp
  | cons a rest ih => simp [ih]; ring

/-- C1: when every included active expense's splits sum exactly to the
expense's amount, the unfiltered balance map sums to exactly zero
(INV-ZERO), whatever the settlements are. -/
theorem compute_balances_zero_sum (gid : Nat) (db : DB)
    (h : ∀ e ∈ get_active_expenses gid db none,
      ((db.splits.filter (fun s => s.expense_id == e.id)).map Split.amount).sum
        = e.amount) :
    sumValues (compute_balances gid db none) = 0 := by
  simp only [compute_balances, if_true]
  rw [sumValues_foldl_setdefault, sumValues_foldl_settle,
    sumValues_foldl_addTo _ (fun s : Split => s.user_id)
      (fun s : Split => -s.amount),
    sumValues_foldl_addTo _ (fun e : Expense => e.paid_by_user_id)
      (fun e : Expense => e.amount),
    sumValues_nil]
  unfold get_splits_for_active_expenses
  rw [sum_map_flatMap]
  have hmap : (get_active_expenses gid db none).map
      (fun e => ((db.splits.filter (fun s => s.expense_id == e.id)).map
        (fun s => -s.amount)).sum)
      = (get_active_expenses gid db none).map (fun e => -(e.amount)) := by
    apply List.map_congr_left
    intro e he
    rw [sum_map_neg _ (fun s : Split => s.amount)]
    have := h e he
    simp only [Split.amount] at this ⊢
    rw [this]
  rw [hmap, sum_map_neg _ (fun e : Expense => e.amount)]
  ring

/-! ### Transfer-list accounting lemmas -/

lemma toTotal_nil (u : Nat) : toTotal u [] = 0 := rfl

lemma fromTotal_nil (u : Nat) : fromTotal u [] = 0 := rfl

lemma netTo_nil (u : Nat) : netTo u [] = 0 := by simp [netTo, toTotal_nil, fromTotal_nil]

lemma toTotal_cons (u : Nat) (t : Transfer) (ts : List Transfer) :
    toTotal u (t :: ts) =
      (if t.to_user_id = u then t.amount else 0) + toTotal u ts := by
  by_cases h : t.to_user_id = u <;> simp [toTotal, List.filter_cons, h]

lemma fromTotal_cons (u : Nat) (t : Transfer) (ts : List Transfer) :
    fromTotal u (t :: ts) =
      (if t.from_user_id = u then t.amount else 0) + fromTotal u ts := by
  by_cases h : t.from_user_id = u <;> simp [fromTotal, List.filter_cons, h]

lemma netTo_cons (u : Nat) (t : Transfer) (ts : List Transfer) :
    netTo u (t :: ts) = netTo u ts
      + (if t.to_user_id = u then t.amount else 0)
      - (if t.from_user_id = u then t.amount else 0) := by
  simp only [netTo, toTotal_cons, fromTotal_cons]
  ring

lemma amountFor_nil (u : Nat) : amountFor [] u = 0 := rfl

lemma amountFor_cons (p : Nat × ℚ) (l : List (Nat × ℚ)) (u : Nat) :
    amountFor (p :: l) u = (if p.1 = u then p.2 else 0) + amountFor l u := by
  by_cases h : p.1 = u <;> simp [amountFor, List.filter_cons, h]

lemma amountFor_nonneg (l : List (Nat × ℚ)) (hl : ∀ p ∈ l, 0 < p.2) (u : Nat) :
    0 ≤ amountFor l u := by
  apply List.sum_nonneg
  intro x hx
  simp only [List.mem_map, List.mem_filter] at hx
  obtain ⟨q, ⟨hq, _⟩, rfl⟩ := hx
  exact le_of_lt (hl q hq)

lemma eq_nil_of_pos_sum_zero (l : List (Nat × ℚ)) (hl : ∀ p ∈ l, 0 < p.2)
    (h : (l.map Prod.snd).sum = 0) : l = [] := by
  cases l with
  | nil => rfl
  | cons p rest =>
    exfalso
    have h1 : 0 < p.2 := hl p (by simp)
    have h2 : 0 ≤ (rest.map Prod.snd).sum := by
      apply List.sum_nonneg
      intro x hx
      simp only [List.mem_map] at hx
      obtain ⟨q, hq, rfl⟩ := hx
      exact le_of_lt (hl q (List.mem_cons_of_mem _ hq))
    simp only [List.map_cons, List.sum_cons] at h
    linarith

/-! ### The greedy matching loop -/

/-- Core conservation of the greedy loop: applying all emitted transfers
credits each creditor exactly their recorded credit and debits each debtor
exactly their recorded debt, for working lists of positive amounts with
equal totals. -/
lemma simplifyLoop_netTo (C D : List (Nat × ℚ)) :
    (∀ p ∈ C, 0 < p.2) → (∀ p ∈ D, 0 < p.2) →
    (C.map Prod.snd).sum = (D.map Prod.snd).sum →
    ∀ u, netTo u (simplifyLoop C D) = amountFor C u - amountFor D u := by
  induction C, D using simplifyLoop.induct with
  | case1 D =>
    intro _ hD hsum u
    have hDnil : D = [] := by
      apply eq_nil_of_pos_sum_zero D hD
      simpa using hsum.symm
    subst hDnil
    simp [simplifyLoop, netTo_nil, amountFor_nil]
  | case2 p C =>
    intro hC _ hsum u
    have : p :: C = [] := by
      apply eq_nil_of_pos_sum_zero _ hC
      simpa using hsum
    exact absurd this (by simp)
  | case3 cid credit cs did debt ds tr h1 h2 ih =>
    intro hC hD hsum u
    have htr : tr = min credit debt := rfl
    rw [htr] at h1 h2
    have htc : min credit debt = credit := by linarith
    have htd : min credit debt = debt := by linarith
    simp only [List.map_cons, List.sum_cons] at hsum
    have hsum' : (cs.map Prod.snd).sum = (ds.map Prod.snd).sum := by linarith
    have ihc := ih (fun p hp => hC p (List.mem_cons_of_mem _ hp))
      (fun p hp => hD p (List.mem_cons_of_mem _ hp)) hsum' u
    simp only [simplifyLoop, h1, h2, if_true]
    rw [netTo_cons, ihc, amountFor_cons, amountFor_cons]
    split_ifs <;> simp_all <;> linarith
  | case4 cid credit cs did debt ds tr h1 h2 ih =>
    intro hC hD hsum u
    have htr : tr = min credit debt := rfl
    rw [htr] at h1 h2
    have htc : min credit debt = credit := by linarith
    have hle : min credit debt ≤ debt := min_le_right _ _
    have hd' : 0 < debt - min credit debt := by
      rcases lt_or_eq_of_le hle with h | h
      · linarith
      · exact absurd (by linarith : debt - min credit debt = 0) h2
    simp only [List.map_cons, List.sum_cons] at hsum
    have hsum' : (cs.map Prod.snd).sum =
        (((did, debt - min credit debt) :: ds).map Prod.snd).sum := by
      simp only [List.map_cons, List.sum_cons]
      linarith
    have ihc := ih (fun p hp => hC p (List.mem_cons_of_mem _ hp))
      (by
        intro p hp
        rcases List.mem_cons.mp hp with h | h
        · subst h; exact hd'
        · exact hD p (List.mem_cons_of_mem _ h))
      hsum' u
    simp only [simplifyLoop, h1, h2, if_true, if_false]
    rw [netTo_cons, ihc, amountFor_cons, amountFor_cons, amountFor_cons]
    split_ifs <;> simp_all <;> linarith
  | case5 cid credit cs did debt ds tr h1 ih =>
    intro hC hD hsum u
    have htr : tr = min credit debt := rfl
    rw [htr] at h1
    have htd : min credit debt = debt := by
      rcases min_cases credit debt with ⟨h, _⟩ | ⟨h, _⟩
      · exact absurd (by linarith : credit - min credit debt = 0) h1
      · exact h
    have hle : min credit debt ≤ credit := min_le_left _ _
    have hc' : 0 < credit - min credit debt := by
      rcases lt_or_eq_of_le hle with h | h
      · linarith
      · exact absurd (by linarith : credit - min credit debt = 0) h1
    simp only [List.map_cons, List.sum_cons] at hsum
    have hsum' : (((cid, credit - min credit debt) :: cs).map Prod.snd).sum =
        (ds.map Prod.snd).sum := by
      simp only [List.map_cons, List.sum_cons]
      linarith
    have ihc := ih
      (by
        intro p hp
        rcases List.mem_cons.mp hp with h | h
        · subst h; exact hc'
        · exact hC p (List.mem_cons_of_mem _ h))
      (fun p hp => hD p (List.mem_cons_of_mem _ hp))
      hsum' u
    simp only [simplifyLoop, h1, if_false]
    rw [netTo_cons, ihc, amountFor_cons, amountFor_cons, amountFor_cons]
    split_ifs <;> simp_all <;> linarith

/-- Every transfer the loop emits carries a strictly positive amount, for
working lists of positive amounts. -/
lemma simplifyLoop_amount_pos (C D : List (Nat × ℚ)) :
    (∀ p ∈ C, 0 < p.2) → (∀ p ∈ D, 0 < p.2) →
    ∀ t ∈ simplifyLoop C D, 0 < t.amount := by
  induction C, D using simplifyLoop.induct with
  | case1 D =>
    intro _ _ t ht
    simp [simplifyLoop] at ht
  | case2 p C =>
    intro _ _ t ht
    simp [simplifyLoop] at ht
  | case3 cid credit cs did debt ds tr h1 h2 ih =>
    intro hC hD t ht
    have htr : tr = min credit debt := rfl
    rw [htr] at h1 h2
    have hcpos : 0 < credit := hC (cid, credit) (List.mem_cons_self _ _)
    have hdpos : 0 < debt := hD (did, debt) (List.mem_cons_self _ _)
    simp only [simplifyLoop, h1, h2, if_true, List.mem_cons] at ht
    rcases ht with rfl | ht
    · exact lt_min hcpos hdpos
    · exact ih (fun p hp => hC p (List.mem_cons_of_mem _ hp))
        (fun p hp => hD p (List.mem_cons_of_mem _ hp)) t ht
  | case4 cid credit cs did debt ds tr h1 h2 ih =>
    intro hC hD t ht
    have htr : tr = min credit debt := rfl
    rw [htr] at h1 h2
    have hcpos : 0 < credit := hC (cid, credit) (List.mem_cons_self _ _)
    have hdpos : 0 < debt := hD (did, debt) (List.mem_cons_self _ _)
    have hle : min credit debt ≤ debt := min_le_right _ _
    have hd' : 0 < debt - min credit debt := by
      rcases lt_or_eq_of_le hle with h | h
      · linarith
      · exact absurd (by linarith : debt - min credit debt = 0) h2
    simp only [simplifyLoop, h1, h2, if_true, if_false, List.mem_cons] at ht
    rcases ht with rfl | ht
    · exact lt_min hcpos hdpos
    · refine ih (fun p hp => hC p (List.mem_cons_of_mem _ hp)) ?_ t ht
      intro p hp
      rcases List.mem_cons.mp hp with h | h
      · subst h; exact hd'
      · exact hD p (List.mem_cons_of_mem _ h)
  | case5 cid credit cs did debt ds tr h1 ih =>
    intro hC hD t ht
    have htr : tr = min credit debt := rfl
    rw [htr] at h1
    have hcpos : 0 < credit := hC (cid, credit) (List.mem_cons_self _ _)
    have hdpos : 0 < debt := hD (did, debt) (List.mem_cons_self _ _)
    have hle : min credit debt ≤ credit := min_le_left _ _
    have hc' : 0 < credit - min credit debt := by
      rcases lt_or_eq_of_le hle with h | h
      · linarith
      · exact absurd (by linarith : credit - min credit debt = 0) h1
    simp only [simplifyLoop, h1, if_false, List.mem_cons] at ht
    rcases ht with rfl | ht
    · exact lt_min hcpos hdpos
    · refine ih ?_ (fun p hp => hD p (List.mem_cons_of_mem _ hp)) t ht
      intro p hp
      rcases List.mem_cons.mp hp with h | h
      · subst h; exact hc'
      · exact hC p (List.mem_cons_of_mem _ h)

/-- Every transfer the loop emits names a debtor-list id as `from` and a
creditor-list id as `to`. -/
lemma simplifyLoop_ids (C D : List (Nat × ℚ)) :
    ∀ t ∈ simplifyLoop C D,
      t.from_user_id ∈ D.map Prod.fst ∧ t.to_user_id ∈ C.map Prod.fst := by
  induction C, D using simplifyLoop.induct with
  | case1 D =>
    intro t ht
    simp [simplifyLoop] at ht
  | case2 p C =>
    intro t ht
    simp [simplifyLoop] at ht
  | case3 cid credit cs did debt ds tr h1 h2 ih =>
    intro t ht
    have htr : tr = min credit debt := rfl
    rw [htr] at h1 h2
    simp only [simplifyLoop, h1, h2, if_true, List.mem_cons] at ht
    rcases ht with rfl | ht
    · simp
    · have := ih t ht
      simp only [List.map_cons, List.mem_cons]
      tauto
  | case4 cid credit cs did debt ds tr h1 h2 ih =>
    intro t ht
    have htr : tr = min credit debt := rfl
    rw [htr] at h1 h2
    simp only [simplifyLoop, h1, h2, if_true, if_false, List.mem_cons] at ht
    rcases ht with rfl | ht
    · simp
    · have := ih t ht
      simp only [List.map_cons, List.mem_cons] at this ⊢
      tauto
  | case5 cid credit cs did debt ds tr h1 ih =>
    intro t ht
    have htr : tr = min credit debt := rfl
    rw [htr] at h1
    simp only [simplifyLoop, h1, if_false, List.mem_cons] at ht
    rcases ht with rfl | ht
    · simp
    · have := ih t ht
      simp only [List.map_cons, List.mem_cons] at this ⊢
      tauto

/-- The loop emits at most (|creditors| + |debtors|) - 1 transfers. -/
lemma simplifyLoop_length (C D : List (Nat × ℚ)) :
    (simplifyLoop C D).length ≤ C.length + D.length - 1 := by
  induction C, D using simplifyLoop.induct with
  | case1 D => simp [simplifyLoop]
  | case2 p C => simp [simplifyLoop]
  | case3 cid credit cs did debt ds tr h1 h2 ih =>
    have htr : tr = min credit debt := rfl
    rw [htr] at h1 h2
    simp only [simplifyLoop, h1, h2, if_true, List.length_cons] at ih ⊢
    omega
  | case4 cid credit cs did debt ds tr h1 h2 ih =>
    have htr : tr = min credit debt := rfl
    rw [htr] at h1 h2 ih
    simp only [simplifyLoop, h1, h2, if_true, if_false, List.length_cons] at ih ⊢
    omega
  | case5 cid credit cs did debt ds tr h1 ih =>
    have htr : tr = min credit debt := rfl
    rw [htr] at h1 ih
    simp only [simplifyLoop, h1, if_false, List.length_cons] at ih ⊢
    omega

/-- Per-member caps: the loop never pays out more from a debtor than their
recorded debt, nor credits a creditor beyond their recorded credit. -/
lemma simplifyLoop_totals_le (C D : List (Nat × ℚ)) :
    (∀ p ∈ C, 0 < p.2) → (∀ p ∈ D, 0 < p.2) →
    ∀ u, fromTotal u (simplifyLoop C D) ≤ amountFor D u ∧
      toTotal u (simplifyLoop C D) ≤ amountFor C u := by
  induction C, D using simplifyLoop.induct with
  | case1 D =>
    intro _ hD u
    simp only [simplifyLoop, fromTotal_nil, toTotal_nil, amountFor_nil]
    exact ⟨amountFor_nonneg D hD u, le_refl 0⟩
  | case2 p C =>
    intro hC _ u
    simp only [simplifyLoop, fromTotal_nil, toTotal_nil, amountFor_nil]
    exact ⟨le_refl 0, amountFor_nonneg _ hC u⟩
  | case3 cid credit cs did debt ds tr h1 h2 ih =>
    intro hC hD u
    have htr : tr = min credit debt := rfl
    rw [htr] at h1 h2
    have ihc := ih (fun p hp => hC p (List.mem_cons_of_mem _ hp))
      (fun p hp => hD p (List.mem_cons_of_mem _ hp)) u
    simp only [simplifyLoop, h1, h2, if_true]
    rw [fromTotal_cons, toTotal_cons, amountFor_cons, amountFor_cons]
    dsimp only
    rcases ihc with ⟨hf, ht⟩
    constructor
    · split_ifs <;> linarith [min_le_right credit debt]
    · split_ifs <;> linarith [min_le_left credit debt]
  | case4 cid credit cs did debt ds tr h1 h2 ih =>
    intro hC hD u
    have htr : tr = min credit debt := rfl
    rw [htr] at h1 h2 ih
    have hle : min credit debt ≤ debt := min_le_right _ _
    have hd' : 0 < debt - min credit debt := by
      rcases lt_or_eq_of_le hle with h | h
      · linarith
      · exact absurd (by linarith : debt - min credit debt = 0) h2
    have ihc := ih (fun p hp => hC p (List.mem_cons_of_mem _ hp))
      (by
        intro p hp
        rcases List.mem_cons.mp hp with h | h
        · subst h; exact hd'
        · exact hD p (List.mem_cons_of_mem _ h)) u
    simp only [simplifyLoop, h1, h2, if_true, if_false]
    rw [fromTotal_cons, toTotal_cons, amountFor_cons, amountFor_cons]
    rw [amountFor_cons] at ihc
    dsimp only
    dsimp only at ihc
    rcases ihc with ⟨hf, ht⟩
    constructor
    · split_ifs at hf ⊢ <;> linarith [min_le_right credit debt]
    · split_ifs <;> linarith [min_le_left credit debt]
  | case5 cid credit cs did debt ds tr h1 ih =>
    intro hC hD u
    have htr : tr = min credit debt := rfl
    rw [htr] at h1 ih
    have hle : min credit debt ≤ credit := min_le_left _ _
    have htd : min credit debt = debt := by
      rcases min_cases credit debt with ⟨h, _⟩ | ⟨h, _⟩
      · exact absurd (by linarith : credit - min credit debt = 0) h1
      · exact h
    have hc' : 0 < credit - min credit debt := by
      rcases lt_or_eq_of_le hle with h | h
      · linarith
      · exact absurd (by linarith : credit - min credit debt = 0) h1
    have ihc := ih
      (by
        intro p hp
        rcases List.mem_cons.mp hp with h | h
        · subst h; exact hc'
        · exact hC p (List.mem_cons_of_mem _ h))
      (fun p hp => hD p (List.mem_cons_of_mem _ hp)) u
    simp only [simplifyLoop, h1, if_false]
    rw [fromTotal_cons, toTotal_cons, amountFor_cons, amountFor_cons]
    rw [amountFor_cons] at ihc
    dsimp only
    dsimp only at ihc
    rcases ihc with ⟨hf, ht⟩
    constructor
    · split_ifs <;> linarith [min_le_right credit debt]
    · split_ifs at ht ⊢ <;> linarith [min_le_left credit debt]

/-! ### Bridging simplify_debts to the loop -/

lemma amountFor_perm {l l' : List (Nat × ℚ)} (h : l.Perm l') (u : Nat) :
    amountFor l u = amountFor l' u :=
  ((h.filter _).map _).sum_eq

lemma amountFor_mergeSort (l : List (Nat × ℚ)) (u : Nat) :
    amountFor (l.mergeSort descBySnd) u = amountFor l u :=
  amountFor_perm (List.mergeSort_perm l descBySnd) u

lemma snd_sum_mergeSort (l : List (Nat × ℚ)) :
    ((l.mergeSort descBySnd).map Prod.snd).sum = (l.map Prod.snd).sum :=
  ((List.mergeSort_perm l descBySnd).map _).sum_eq

lemma amountFor_eq_zero_of_not_mem (l : List (Nat × ℚ)) (u : Nat)
    (h : u ∉ l.map Prod.fst) : amountFor l u = 0 := by
  induction l with
  | nil => rfl
  | cons p rest ih =>
    simp only [List.map_cons, List.mem_cons] at h
    push_neg at h
    rw [amountFor_cons, if_neg (fun hh => h.1 hh.symm), ih h.2, zero_add]

lemma keys_filter_subset (l : List (Nat × ℚ)) (pred : Nat × ℚ → Bool) (u : Nat)
    (h : u ∈ (l.filter pred).map Prod.fst) : u ∈ l.map Prod.fst := by
  simp only [List.mem_map] at h ⊢
  obtain ⟨p, hp, rfl⟩ := h
  exact ⟨p, (List.mem_filter.mp hp).1, rfl⟩

/-- With unique keys (dict semantics), the creditor pre-sort list records
exactly the positive part of each member's balance. -/
lemma amountFor_filter_pos (m : BalanceMap) (hnd : (m.map Prod.fst).Nodup)
    (u : Nat) :
    amountFor (m.filter (fun p => decide (0 < p.2))) u = max (lookupD m u) 0 := by
  induction m with
  | nil => simp [amountFor_nil, lookupD_nil]
  | cons p rest ih =>
    simp only [List.map_cons, List.nodup_cons] at hnd
    obtain ⟨hp, hrest⟩ := hnd
    by_cases hu : p.1 = u
    · subst hu
      have hz : amountFor (rest.filter (fun p => decide (0 < p.2))) p.1 = 0 := by
        apply amountFor_eq_zero_of_not_mem
        intro hmem
        exact hp (keys_filter_subset _ _ _ hmem)
      rw [lookupD_cons, if_pos rfl]
      by_cases hpos : 0 < p.2
      · rw [List.filter_cons_of_pos (by simpa using hpos), amountFor_cons,
          if_pos rfl, hz, add_zero]
        exact (max_eq_left (le_of_lt hpos)).symm
      · rw [List.filter_cons_of_neg (by simpa using hpos), hz]
        push_neg at hpos
        exact (max_eq_right hpos).symm
    · rw [lookupD_cons, if_neg hu]
      by_cases hpos : 0 < p.2
      · rw [List.filter_cons_of_pos (by simpa using hpos), amountFor_cons,
          if_neg hu, zero_add]
        exact ih hrest
      · rw [List.filter_cons_of_neg (by simpa using hpos)]
        exact ih hrest

/-- With unique keys, the debtor pre-sort list records exactly the magnitude
of the negative part of each member's balance. -/
lemma amountFor_filter_neg (m : BalanceMap) (hnd : (m.map Prod.fst).Nodup)
    (u : Nat) :
    amountFor ((m.filter (fun p => decide (p.2 < 0))).map (fun p => (p.1, -p.2))) u
      = -(min (lookupD m u) 0) := by
  induction m with
  | nil => simp [amountFor_nil, lookupD_nil]
  | cons p rest ih =>
    simp only [List.map_cons, List.nodup_cons] at hnd
    obtain ⟨hp, hrest⟩ := hnd
    by_cases hu : p.1 = u
    · subst hu
      have hz : amountFor ((rest.filter (fun p => decide (p.2 < 0))).map
          (fun p => (p.1, -p.2))) p.1 = 0 := by
        apply amountFor_eq_zero_of_not_mem
        intro hmem
        apply hp
        simp only [List.map_map, List.mem_map, Function.comp] at hmem
        obtain ⟨q, hq, hq1⟩ := hmem
        simp only [List.mem_map]
        exact ⟨q, (List.mem_filter.mp hq).1, hq1⟩
      rw [lookupD_cons, if_pos rfl]
      by_cases hneg : p.2 < 0
      · rw [List.filter_cons_of_pos (by simpa using hneg), List.map_cons,
          amountFor_cons, if_pos rfl, hz, add_zero]
        have : min p.2 0 = p.2 := min_eq_left (le_of_lt hneg)
        rw [this]
      · rw [List.filter_cons_of_neg (by simpa using hneg), hz]
        push_neg at hneg
        have : min p.2 0 = 0 := min_eq_right hneg
        rw [this, neg_zero]
    · rw [lookupD_cons, if_neg hu]
      by_cases hneg : p.2 < 0
      · rw [List.filter_cons_of_pos (by simpa using hneg), List.map_cons,
          amountFor_cons, if_neg hu, zero_add]
        exact ih hrest
      · rw [List.filter_cons_of_neg (by simpa using hneg)]
        exact ih hrest

/-- With unique keys, no id appears both with positive and with negative
balance. -/
lemma pos_neg_keys_disjoint (m : BalanceMap) (hnd : (m.map Prod.fst).Nodup)
    (u : Nat)
    (h1 : u ∈ (m.filter (fun p => decide (0 < p.2))).map Prod.fst)
    (h2 : u ∈ ((m.filter (fun p => decide (p.2 < 0))).map
      (fun p => (p.1, -p.2))).map Prod.fst) : False := by
  simp only [List.mem_map, List.mem_filter, decide_eq_true_eq] at h1 h2
  obtain ⟨p, ⟨hpm, hppos⟩, hpu⟩ := h1
  obtain ⟨q', ⟨q, ⟨hqm, hqneg⟩, rfl⟩, hqu⟩ := h2
  simp only at hqu
  have : p = q := List.inj_on_of_nodup_map hnd hpm hqm (by rw [hpu, hqu])
  subst this
  linarith

/-- The positive and negative parts of a balance map account for its whole
sum (zero entries contribute nothing). -/
lemma sum_filter_pos_add_neg (m : BalanceMap) :
    ((m.filter (fun p => decide (0 < p.2))).map Prod.snd).sum
      + ((m.filter (fun p => decide (p.2 < 0))).map Prod.snd).sum
      = sumValues m := by
  induction m with
  | nil => simp [sumValues_nil]
  | cons p rest ih =>
    rw [sumValues_cons]
    rcases lt_trichotomy p.2 0 with h | h | h
    · rw [List.filter_cons_of_neg (by simpa using not_lt_of_lt h),
        List.filter_cons_of_pos (by simpa using h), List.map_cons,
        List.sum_cons]
      linarith
    · rw [List.filter_cons_of_neg (by simp [h]),
        List.filter_cons_of_neg (by simp [h]), h, zero_add]
      exact ih
    · rw [List.filter_cons_of_pos (by simpa using h),
        List.filter_cons_of_neg (by simpa using not_lt_of_lt h),
        List.map_cons, List.sum_cons]
      linarith

/-- Positivity of the sorted creditor working list. -/
lemma creditors_pos (m : BalanceMap) :
    ∀ p ∈ (m.filter (fun p => decide (0 < p.2))).mergeSort descBySnd, 0 < p.2 := by
  intro p hp
  rw [List.mem_mergeSort] at hp
  exact by simpa using (List.mem_filter.mp hp).2

/-- Positivity of the sorted debtor working list. -/
lemma debtors_pos (m : BalanceMap) :
    ∀ p ∈ ((m.filter (fun p => decide (p.2 < 0))).map
      (fun p => (p.1, -p.2))).mergeSort descBySnd, 0 < p.2 := by
  intro p hp
  rw [List.mem_mergeSort] at hp
  simp only [List.mem_map, List.mem_filter, decide_eq_true_eq] at hp
  obtain ⟨q, ⟨_, hq⟩, rfl⟩ := hp
  simpa using hq

lemma lookupD_eq_of_mem (m : BalanceMap) (hnd : (m.map Prod.fst).Nodup)
    (q : Nat × ℚ) (hq : q ∈ m) : lookupD m q.1 = q.2 := by
  induction m with
  | nil => cases hq
  | cons p rest ih =>
    simp only [List.map_cons, List.nodup_cons] at hnd
    rcases List.mem_cons.mp hq with rfl | hq'
    · rw [lookupD_cons, if_pos rfl]
    · have hne : p.1 ≠ q.1 := by
        intro h
        exact hnd.1 (h ▸ List.mem_map.mpr ⟨q, hq', rfl⟩)
      rw [lookupD_cons, if_neg hne, ih hnd.2 hq']

lemma simplifyLoop_nil_right (C : List (Nat × ℚ)) : simplifyLoop C [] = [] := by
  cases C with
  | nil => simp [simplifyLoop]
  | cons p cs => simp [simplifyLoop]

lemma simplify_debts_eq_nil_of_no_debtors (m : BalanceMap)
    (h : ∀ p ∈ m, ¬ p.2 < 0) : simplify_debts m = [] := by
  unfold simplify_debts
  have hf : m.filter (fun p => decide (p.2 < 0)) = [] := by
    rw [List.filter_eq_nil_iff]
    intro p hp
    simpa using h p hp
  rw [hf]
  simp only [List.map_nil, List.mergeSort_nil]
  exact simplifyLoop_nil_right _

lemma simplify_debts_eq_nil_of_no_creditors (m : BalanceMap)
    (h : ∀ p ∈ m, ¬ 0 < p.2) : simplify_debts m = [] := by
  unfold simplify_debts
  have hf : m.filter (fun p => decide (0 < p.2)) = [] := by
    rw [List.filter_eq_nil_iff]
    intro p hp
    simpa using h p hp
  rw [hf]
  simp [simplifyLoop]

lemma length_filter_pos_add_neg (m : BalanceMap) :
    (m.filter (fun p => decide (0 < p.2))).length
      + (m.filter (fun p => decide (p.2 < 0))).length
      = (m.filter (fun p => decide (p.2 ≠ 0))).length := by
  induction m with
  | nil => rfl
  | cons p rest ih =>
    rcases lt_trichotomy p.2 0 with h | h | h
    · rw [List.filter_cons_of_neg (by simpa using not_lt_of_lt h),
        List.filter_cons_of_pos (by simpa using h),
        List.filter_cons_of_pos (by simpa using ne_of_lt h)]
      simp only [List.length_cons]
      omega
    · rw [List.filter_cons_of_neg (by simp [h]),
        List.filter_cons_of_neg (by simp [h]),
        List.filter_cons_of_neg (by simp [h])]
      exact ih
    · rw [List.filter_cons_of_pos (by simpa using h),
        List.filter_cons_of_neg (by simpa using not_lt_of_lt h),
        List.filter_cons_of_pos (by simpa using (ne_of_gt h))]
      simp only [List.length_cons]
      omega

/-- C2: applying every emitted transfer (debit from, credit to) to a
zero-summing balance map reproduces the map exactly: each member's net
receipt equals their input balance. -/
theorem simplify_debts_round_trip (m : BalanceMap)
    (hnd : (m.map Prod.fst).Nodup) (hsum : sumValues m = 0) :
    ∀ u, netTo u (simplify_debts m) = lookupD m u := by
  intro u
  unfold simplify_debts
  have hsum' : (((m.filter (fun p => decide (0 < p.2))).mergeSort
        descBySnd).map Prod.snd).sum
      = ((((m.filter (fun p => decide (p.2 < 0))).map
        (fun p => (p.1, -p.2))).mergeSort descBySnd).map Prod.snd).sum := by
    rw [snd_sum_mergeSort, snd_sum_mergeSort]
    have h1 := sum_filter_pos_add_neg m
    have h2 : (((m.filter (fun p => decide (p.2 < 0))).map
          (fun p => (p.1, -p.2))).map Prod.snd).sum
        = -(((m.filter (fun p => decide (p.2 < 0))).map Prod.snd).sum) := by
      rw [List.map_map]
      have hc : (Prod.snd ∘ fun p : Nat × ℚ => (p.1, -p.2))
          = fun p : Nat × ℚ => -(p.2) := rfl
      rw [hc, sum_map_neg _ (fun p : Nat × ℚ => p.2)]
    rw [h2, hsum] at *
    linarith
  have hnet := simplifyLoop_netTo _ _ (creditors_pos m) (debtors_pos m) hsum' u
  rw [hnet, amountFor_mergeSort, amountFor_mergeSort,
    amountFor_filter_pos m hnd u, amountFor_filter_neg m hnd u]
  have hmm := max_add_min (lookupD m u) 0
  linarith

/-- C3: for a zero-summing balance map with N nonzero entries, the greedy
simplifier emits at most N - 1 transfers. -/
theorem simplify_debts_transfer_bound (m : BalanceMap)
    (hsum : sumValues m = 0) :
    (simplify_debts m).length
      ≤ (m.filter (fun p => decide (p.2 ≠ 0))).length - 1 := by
  unfold simplify_debts
  refine le_trans (simplifyLoop_length _ _) ?_
  rw [List.length_mergeSort, List.length_mergeSort, List.length_map]
  have h := length_filter_pos_add_neg m
  omega

/-- C5 (amended): a single-signed balance map — no entry strictly negative,
or no entry strictly positive — yields an empty transfer list rather than
an error.  (A non-zero-summing map with both signs present does emit
transfers; see the counterexample.) -/
theorem simplify_debts_single_signed (m : BalanceMap) :
    ((∀ p ∈ m, ¬ p.2 < 0) → simplify_debts m = []) ∧
    ((∀ p ∈ m, ¬ 0 < p.2) → simplify_debts m = []) :=
  ⟨simplify_debts_eq_nil_of_no_debtors m, simplify_debts_eq_nil_of_no_creditors m⟩

/-- C5 counterexample: a non-zero-summing balance map with both signs
present yields a non-empty transfer list, refuting the claim that every
non-zero-summing map yields an empty list. -/
theorem simplify_debts_nonzero_sum_cex :
    sumValues [(1, (5 : ℚ)), (2, -3)] ≠ 0 ∧
      simplify_debts [(1, (5 : ℚ)), (2, -3)] ≠ [] := by
  constructor
  · norm_num [sumValues]
  · have h : simplify_debts [(1, (5 : ℚ)), (2, -3)] = [⟨2, 1, 3⟩] := by
      norm_num [simplify_debts, simplifyLoop, descBySnd]
    simp [h]

/-- C5 witness: single-signed maps do yield the empty list. -/
theorem simplify_debts_single_signed_witness :
    simplify_debts [(1, (2 : ℚ)), (2, 3)] = [] ∧
      simplify_debts [(1, (-2 : ℚ)), (2, -3)] = [] :=
  ⟨(simplify_debts_single_signed _).1 (by norm_num),
   (simplify_debts_single_signed _).2 (by norm_num)⟩

/-- C8: simplify_debts is a total function of its input (it is defined for
every balance map and never raises); an all-zero map, a map with no
strictly negative entry, or a map with no strictly positive entry each
yield the empty transfer list. -/
theorem simplify_debts_degenerate_total (m : BalanceMap) :
    ((∀ p ∈ m, p.2 = 0) → simplify_debts m = []) ∧
    ((∀ p ∈ m, ¬ p.2 < 0) → simplify_debts m = []) ∧
    ((∀ p ∈ m, ¬ 0 < p.2) → simplify_debts m = []) :=
  ⟨fun h => simplify_debts_eq_nil_of_no_debtors m
      (fun p hp => by rw [h p hp]; exact lt_irrefl 0),
   simplify_debts_eq_nil_of_no_debtors m,
   simplify_debts_eq_nil_of_no_creditors m⟩

/-- C8 witness: the all-zero map yields no transfers. -/
theorem simplify_debts_degenerate_total_witness :
    simplify_debts [(1, (0 : ℚ)), (2, 0)] = [] :=
  (simplify_debts_degenerate_total _).1 (by norm_num)

/-- C9: for a balance map with unique keys (Python dict semantics), every
emitted transfer has strictly positive amount and from ≠ to. -/
theorem simplify_debts_transfer_wf (m : BalanceMap)
    (hnd : (m.map Prod.fst).Nodup) :
    ∀ t ∈ simplify_debts m, 0 < t.amount ∧ t.from_user_id ≠ t.to_user_id := by
  intro t ht
  unfold simplify_debts at ht
  refine ⟨simplifyLoop_amount_pos _ _ (creditors_pos m) (debtors_pos m) t ht, ?_⟩
  intro heq
  obtain ⟨hf, htc⟩ := simplifyLoop_ids _ _ t ht
  have hf' : t.from_user_id ∈ ((m.filter (fun p => decide (p.2 < 0))).map
      (fun p => (p.1, -p.2))).map Prod.fst := by
    rcases List.mem_map.mp hf with ⟨q, hq, hq2⟩
    exact List.mem_map.mpr ⟨q, List.mem_mergeSort.mp hq, hq2⟩
  have ht' : t.to_user_id ∈
      (m.filter (fun p => decide (0 < p.2))).map Prod.fst := by
    rcases List.mem_map.mp htc with ⟨q, hq, hq2⟩
    exact List.mem_map.mpr ⟨q, List.mem_mergeSort.mp hq, hq2⟩
  exact pos_neg_keys_disjoint m hnd t.to_user_id ht' (heq ▸ hf')

/-- C9 witness. -/
theorem simplify_debts_transfer_wf_witness :
    0 < (⟨2, 1, (5 : ℚ)⟩ : Transfer).amount ∧
      (⟨2, 1, (5 : ℚ)⟩ : Transfer).from_user_id
        ≠ (⟨2, 1, (5 : ℚ)⟩ : Transfer).to_user_id := by
  have h : simplify_debts [(1, (5 : ℚ)), (2, -5)] = [⟨2, 1, 5⟩] := by
    norm_num [simplify_debts, simplifyLoop, descBySnd]
  exact simplify_debts_transfer_wf [(1, (5 : ℚ)), (2, -5)] (by decide)
    ⟨2, 1, 5⟩ (by rw [h]; exact List.mem_singleton.mpr rfl)

/-- C10: for any balance map with unique keys — zero-summing or not —
every transfer runs from a member with strictly negative input balance to
one with strictly positive input balance, and no member's total outgoing
(incoming) transfers exceed the magnitude of their negative (positive)
input balance. -/
theorem simplify_debts_signs_and_caps (m : BalanceMap)
    (hnd : (m.map Prod.fst).Nodup) :
    (∀ t ∈ simplify_debts m,
      lookupD m t.from_user_id < 0 ∧ 0 < lookupD m t.to_user_id) ∧
    (∀ u, fromTotal u (simplify_debts m) ≤ -(min (lookupD m u) 0) ∧
      toTotal u (simplify_debts m) ≤ max (lookupD m u) 0) := by
  constructor
  · intro t ht
    unfold simplify_debts at ht
    obtain ⟨hf, htc⟩ := simplifyLoop_ids _ _ t ht
    constructor
    · rcases List.mem_map.mp hf with ⟨q', hq', hq2⟩
      rcases List.mem_map.mp (List.mem_mergeSort.mp hq') with ⟨q, hq, rfl⟩
      obtain ⟨hqm, hqneg⟩ := List.mem_filter.mp hq
      have : lookupD m q.1 = q.2 := lookupD_eq_of_mem m hnd q hqm
      rw [← hq2]
      simp only []
      rw [this]
      simpa using hqneg
    · rcases List.mem_map.mp htc with ⟨q, hq, hq2⟩
      have hq' := List.mem_mergeSort.mp hq
      obtain ⟨hqm, hqpos⟩ := List.mem_filter.mp hq'
      have : lookupD m q.1 = q.2 := lookupD_eq_of_mem m hnd q hqm
      rw [← hq2, this]
      simpa using hqpos
  · intro u
    unfold simplify_debts
    have h := simplifyLoop_totals_le _ _ (creditors_pos m) (debtors_pos m) u
    rw [amountFor_mergeSort, amountFor_mergeSort,
      amountFor_filter_pos m hnd u, amountFor_filter_neg m hnd u] at h
    exact ⟨h.1, h.2⟩

/-- C10 witness. -/
theorem simplify_debts_signs_and_caps_witness :
    fromTotal 2 (simplify_debts [(1, (5 : ℚ)), (2, -5)])
        ≤ -(min (lookupD [(1, (5 : ℚ)), (2, -5)] 2) 0) ∧
      toTotal 2 (simplify_debts [(1, (5 : ℚ)), (2, -5)])
        ≤ max (lookupD [(1, (5 : ℚ)), (2, -5)] 2) 0 :=
  (simplify_debts_signs_and_caps [(1, (5 : ℚ)), (2, -5)] (by decide)).2 2

/-- C2 witness. -/
theorem simplify_debts_round_trip_witness :
    netTo 3 (simplify_debts [(1, (30 : ℚ)), (2, -10), (3, -20)])
      = lookupD [(1, (30 : ℚ)), (2, -10), (3, -20)] 3 :=
  simplify_debts_round_trip _ (by decide) (by norm_num [sumValues]) 3

/-- C3 witness. -/
theorem simplify_debts_transfer_bound_witness :
    (simplify_debts [(1, (30 : ℚ)), (2, -10), (3, -20)]).length
      ≤ ([(1, (30 : ℚ)), (2, -10), (3, -20)].filter
          (fun p => decide (p.2 ≠ 0))).length - 1 :=
  simplify_debts_transfer_bound _ (by norm_num [sumValues])

/-- C1 witness. -/
theorem compute_balances_zero_sum_witness :
    sumValues (compute_balances 1 dbA none) = 0 :=
  compute_balances_zero_sum 1 dbA (by
    intro e he
    simp only [get_active_expenses, dbA, categoryMatches, List.filter_cons,
      List.filter_nil] at he
    norm_num at he
    subst he
    norm_num [dbA, List.filter_cons])

/-- C4 counterexample: an active expense paid by non-member 99 puts key 99
into the balance map, so the key set is not always exactly the member set. -/
theorem compute_balances_key_not_member_cex :
    99 ∈ keysOf (compute_balances 1 dbX none) ∧
      99 ∉ get_member_ids 1 dbX := by
  constructor
  · norm_num [compute_balances, dbX, get_active_expenses, categoryMatches,
      get_splits_for_active_expenses, get_settlements, get_member_ids,
      List.filter_cons, addTo, setKey, setdefault, lookupD, keysOf]
  · norm_num [get_member_ids, dbX, List.filter_cons]

/-- C4 (amended): every current member appears as a key of the balance map,
and a member who appears in no expense, split, or settlement has balance
exactly 0; but the key set may strictly exceed the member set (non-member
payers, split users, or settlement parties also get keys). -/
theorem compute_balances_members (gid : Nat) (db : DB) (cat : Option Category)
    (u : Nat) (hu : u ∈ get_member_ids gid db) :
    u ∈ keysOf (compute_balances gid db cat) ∧
    ((∀ e ∈ get_active_expenses gid db cat, e.paid_by_user_id ≠ u) →
     (∀ s ∈ get_splits_for_active_expenses gid db cat, s.user_id ≠ u) →
     (∀ st ∈ get_settlements gid db,
        st.paid_by_user_id ≠ u ∧ st.paid_to_user_id ≠ u) →
     lookupD (compute_balances gid db cat) u = 0) := by
  constructor
  · simp only [compute_balances]
    rw [mem_keysOf_foldl_setdefault]
    exact Or.inr hu
  · intro h1 h2 h3
    have he : (get_active_expenses gid db cat).filter
        (fun e => e.paid_by_user_id == u) = [] := by
      rw [List.filter_eq_nil_iff]
      intro e he
      simpa using h1 e he
    have hs : (get_splits_for_active_expenses gid db cat).filter
        (fun s => s.user_id == u) = [] := by
      rw [List.filter_eq_nil_iff]
      intro s hsm
      simpa using h2 s hsm
    simp only [compute_balances]
    rw [lookupD_foldl_setdefault]
    cases cat with
    | none =>
      simp only [if_true]
      rw [lookupD_foldl_settle _ _ _ h3,
        lookupD_foldl_addTo _ (fun s : Split => s.user_id)
          (fun s : Split => -s.amount),
        lookupD_foldl_addTo _ (fun e : Expense => e.paid_by_user_id)
          (fun e : Expense => e.amount),
        he, hs, lookupD_nil]
      simp
    | some c =>
      simp only [reduceCtorEq, if_false]
      rw [lookupD_foldl_addTo _ (fun s : Split => s.user_id)
          (fun s : Split => -s.amount),
        lookupD_foldl_addTo _ (fun e : Expense => e.paid_by_user_id)
          (fun e : Expense => e.amount),
        he, hs, lookupD_nil]
      simp

/-- C4 witness: member 3 of dbA has no activity and appears with balance 0. -/
theorem compute_balances_members_witness :
    3 ∈ keysOf (compute_balances 1 dbA none) ∧
      lookupD (compute_balances 1 dbA none) 3 = 0 :=
  ⟨(compute_balances_members 1 dbA none 3 (by decide)).1,
   (compute_balances_members 1 dbA none 3 (by decide)).2
     (by decide) (by decide) (by decide)⟩

/-- C6: when the group exists and the caller is a member, the response is
the 500 integrity error exactly when the view is unfiltered and the balance
sum is nonzero; category-filtered views are never integrity-checked; every
returned payload carries the exact decimal sum of the balance map. -/
theorem get_balance_response_integrity (gid caller : Nat) (db : DB)
    (cat : Option Category)
    (hg : db.groups.contains gid = true)
    (hm : (get_member_ids gid db).contains caller = true) :
    (get_balance_response gid caller db cat
        = Except.error ⟨ErrorCode.INTERNAL_ERROR, 500⟩ ↔
      (cat = none ∧ sumValues (compute_balances gid db cat) ≠ 0)) ∧
    (∀ r, get_balance_response gid caller db cat = Except.ok r →
      r.balance_sum = sumValues (compute_balances gid db cat)) := by
  unfold get_balance_response
  rw [if_pos hg, if_pos hm]
  cases cat with
  | none =>
    by_cases hsz : sumValues (compute_balances gid db none) = 0
    · constructor
      · simp [hsz]
      · intro r hr
        simp only [if_true, if_pos hsz] at hr
        cases hr
        rfl
    · constructor
      · simp [hsz]
      · intro r hr
        simp only [if_true, if_neg hsz] at hr
        cases hr
  | some c =>
    constructor
    · simp
    · intro r hr
      simp only [reduceCtorEq, if_false] at hr
      cases hr
      rfl

/-- C6 witness: dbB carries corrupt data (balance sum 40), and the
unfiltered response is the 500 integrity error. -/
theorem get_balance_response_integrity_witness :
    get_balance_response 1 1 dbB none
      = Except.error ⟨ErrorCode.INTERNAL_ERROR, 500⟩ :=
  (get_balance_response_integrity 1 1 dbB none (by decide) (by decide)).1.mpr
    ⟨rfl, by
      norm_num [compute_balances, dbB, get_active_expenses, categoryMatches,
        get_splits_for_active_expenses, get_settlements, get_member_ids,
        List.filter_cons, addTo, setKey, setdefault, lookupD, sumValues]⟩

/-- C7: in category-filtered mode settlements never contribute to the
balances, the response's simplified-debt list is empty, and filtering by a
category matching no expense leaves every current member (and only them) at
exactly 0. -/
theorem category_filtered_view (gid : Nat) (db : DB) (c : Category) :
    compute_balances gid db (some c)
      = compute_balances gid { db with settlements := [] } (some c) ∧
    (∀ caller r, get_balance_response gid caller db (some c) = Except.ok r →
      r.simplified_debts = []) ∧
    (get_active_expenses gid db (some c) = [] →
      ∀ u, (u ∈ keysOf (compute_balances gid db (some c)) ↔
        u ∈ get_member_ids gid db) ∧
        lookupD (compute_balances gid db (some c)) u = 0) := by
  refine ⟨rfl, ?_, ?_⟩
  · intro caller r hr
    unfold get_balance_response at hr
    split at hr
    · split at hr
      · simp only [reduceCtorEq, if_false] at hr
        cases hr
        rfl
      · cases hr
    · cases hr
  · intro hemp u
    have hsp : get_splits_for_active_expenses gid db (some c) = [] := by
      unfold get_splits_for_active_expenses
      rw [hemp]
      rfl
    simp only [compute_balances, hemp, hsp, reduceCtorEq, if_false,
      List.foldl_nil]
    constructor
    · rw [mem_keysOf_foldl_setdefault]
      simp [keysOf]
    · rw [lookupD_foldl_setdefault, lookupD_nil]

/-- C7 witness: dbA has no food expense; member 1 sits at 0 in the
food-filtered view even though dbA contains a settlement involving them. -/
theorem category_filtered_view_witness :
    lookupD (compute_balances 1 dbA (some Category.food)) 1 = 0 :=
  ((category_filtered_view 1 dbA Category.food).2.2 (by decide) 1).2

end SplitLedger
